import Mathlib

/-!
# Verification of the oidc4vp4shc client core

A shallow embedding of `src/lib/client.ts`: the constraint matcher
(`findManifestEntries`), the authorization-request builder/parser
(`Client.prepareToAuthorize`, the `queryString`/`JSON` transport encoding and
the `aParsed` validation), and the presentation-token assembler (`createVp`).

Modelling conventions:
* JS strings are Lean `String`s; the transport primitives work on `List Char`.
* Percent-encoding is modelled at the byte level for ASCII code points
  (`c.toNat < 128`); multi-byte UTF-8 percent-encoding of non-ASCII code
  points is outside the model.
* `JSON.parse` / `JSON.stringify` are modelled by an executable `Json`
  codec.  Numeric literals are modelled as integers (no float syntax) and
  `\u` escapes must denote Unicode scalar values; both restrictions are
  irrelevant to the values the program serializes.
* `crypto.randomUUID()` and the clock are externalized as explicit
  parameters (`nonce`, `jti`, `now`).
-/

namespace Oidc4vp

/-! ## JS string primitives (String.prototype.split, query-string, percent coding) -/

/-- `str.split(sep)` for a one-character separator, on char lists. -/
def jsSplitChar (sep : Char) : List Char → List (List Char)
  | [] => [[]]
  | c :: rest =>
    match jsSplitChar sep rest with
    | [] => if c = sep then [[], []] else [[c]]
    | h :: t => if c = sep then [] :: h :: t else (c :: h) :: t

/-- `split-on-first(sep)`: key before the first separator, rest after it
(`none` when the separator does not occur), as `query-string` does for `=`. -/
def splitFirst (sep : Char) : List Char → List Char × Option (List Char)
  | [] => ([], none)
  | c :: rest =>
    if c = sep then ([], some rest)
    else
      let p := splitFirst sep rest
      (c :: p.1, p.2)

/-- Join pieces with a one-character separator (inverse of `jsSplitChar`). -/
def joinSep (sep : Char) : List (List Char) → List Char
  | [] => []
  | [x] => x
  | x :: y :: rest => x ++ sep :: joinSep sep (y :: rest)

/-- `query-string` strips a single leading `?`, `#` or `&` from its input. -/
def stripLead : List Char → List Char
  | [] => []
  | c :: rest => if c = '?' ∨ c = '#' ∨ c = '&' then rest else c :: rest

/-- Characters kept verbatim by strict percent-encoding (RFC 3986 unreserved). -/
def isUnreservedChar (c : Char) : Bool :=
  ('a' ≤ c && c ≤ 'z') || ('A' ≤ c && c ≤ 'Z') || ('0' ≤ c && c ≤ '9') ||
  c = '-' || c = '_' || c = '.' || c = '~'

/-- Uppercase hexadecimal digit for a value `< 16`. -/
def hexDigitChar (n : Nat) : Char :=
  if n < 10 then Char.ofNat ('0'.toNat + n) else Char.ofNat ('A'.toNat + n - 10)

def isHexDigit (c : Char) : Bool :=
  ('0' ≤ c && c ≤ '9') || ('A' ≤ c && c ≤ 'F') || ('a' ≤ c && c ≤ 'f')

/-- Numeric value of a hexadecimal digit. -/
def hexVal (c : Char) : Nat :=
  if '0' ≤ c && c ≤ '9' then c.toNat - '0'.toNat
  else if 'A' ≤ c && c ≤ 'F' then c.toNat - 'A'.toNat + 10
  else if 'a' ≤ c && c ≤ 'f' then c.toNat - 'a'.toNat + 10
  else 0

/-- Strict percent-encoding of one (ASCII) character. -/
def percentEncodeChar (c : Char) : List Char :=
  if isUnreservedChar c then [c]
  else ['%', hexDigitChar (c.toNat / 16 % 16), hexDigitChar (c.toNat % 16)]

/-- Strict percent-encoding of a character list. -/
def percentEncode (l : List Char) : List Char :=
  l.flatMap percentEncodeChar

mutual

/-- Graceful percent-decoding (`decode-uri-component`): a `%` followed by two
hex digits becomes the denoted (single-byte) character, anything else is kept
verbatim. -/
def percentDecode : List Char → List Char
  | [] => []
  | c :: rest => if c = '%' then pctAfter rest else c :: percentDecode rest

/-- Decoding the tail after a `%`: two hex digits form the denoted
(single-byte) character; anything else keeps the `%` verbatim and decoding
resumes at the next character (the inlined recursion makes this structurally
recursive; it is the same computation). -/
def pctAfter : List Char → List Char
  | [] => ['%']
  | [h1] => '%' :: (if h1 = '%' then pctAfter [] else [h1])
  | h1 :: h2 :: rest2 =>
    if isHexDigit h1 && isHexDigit h2 then
      Char.ofNat (hexVal h1 * 16 + hexVal h2) :: percentDecode rest2
    else
      '%' :: (if h1 = '%' then pctAfter (h2 :: rest2) else h1 :: percentDecode (h2 :: rest2))

end

/-! ## JSON values and the `JSON.stringify` / `JSON.parse` codec -/

/-- JSON values (`JSON.parse` results).  Object fields keep insertion order,
as JS objects do.  Numbers are modelled as integers. -/
inductive Json where
  | null
  | bool (b : Bool)
  | num (n : Int)
  | str (s : String)
  | arr (xs : List Json)
  | obj (fields : List (String × Json))

/-- JS truthiness of a JSON value (for `JSON.parse(...) || undefined`). -/
def Json.truthy : Json → Bool
  | .null => false
  | .bool b => b
  | .num n => n != 0
  | .str s => s != ""
  | .arr _ => true
  | .obj _ => true

/-- `JSON.stringify` escaping of one string character. -/
def jstrEscapeChar (c : Char) : List Char :=
  if c = '"' then ['\\', '"']
  else if c = '\\' then ['\\', '\\']
  else if c = '\n' then ['\\', 'n']
  else if c = '\r' then ['\\', 'r']
  else if c = '\t' then ['\\', 't']
  else if c.toNat = 8 then ['\\', 'b']
  else if c.toNat = 12 then ['\\', 'f']
  else if c.toNat < 32 then
    ['\\', 'u', '0', '0', hexDigitChar (c.toNat / 16 % 16), hexDigitChar (c.toNat % 16)]
  else [c]

/-- `JSON.stringify` of a string literal. -/
def jstrQuote (s : String) : List Char :=
  '"' :: s.data.flatMap jstrEscapeChar ++ ['"']

/-- Fuel-indexed `JSON.stringify` (fuel is only a termination device;
`jsonStringify` supplies enough). -/
def jsonStringifyF : Nat → Json → List Char
  | 0, _ => []
  | _ + 1, .null => "null".data
  | _ + 1, .bool b => if b then "true".data else "false".data
  | _ + 1, .num n => (toString n).data
  | _ + 1, .str s => jstrQuote s
  | fuel + 1, .arr xs =>
    '[' :: joinSep ',' (xs.map (jsonStringifyF fuel)) ++ [']']
  | fuel + 1, .obj fs =>
    '{' :: joinSep ',' (fs.map fun f => jstrQuote f.1 ++ ':' :: jsonStringifyF fuel f.2) ++ ['}']

mutual

/-- Structural size of a JSON value (an executable fuel bound for the codec). -/
def jsonSize : Json → Nat
  | .null => 1
  | .bool _ => 1
  | .num _ => 1
  | .str _ => 1
  | .arr xs => 1 + jsonSizeL xs
  | .obj fs => 1 + jsonSizeFs fs

def jsonSizeL : List Json → Nat
  | [] => 0
  | x :: xs => jsonSize x + jsonSizeL xs

def jsonSizeFs : List (String × Json) → Nat
  | [] => 0
  | (_, v) :: fs => jsonSize v + jsonSizeFs fs

end

/-- `JSON.stringify`. -/
def jsonStringify (j : Json) : String :=
  String.mk (jsonStringifyF (jsonSize j) j)

/-- JSON whitespace skipping. -/
def skipWs : List Char → List Char
  | c :: rest =>
    if c = ' ' ∨ c = '\t' ∨ c = '\n' ∨ c = '\r' then skipWs rest else c :: rest
  | [] => []

/-- Parse the body of a JSON string literal (after the opening quote), up to
and including the closing quote. -/
def parseJStr : Nat → List Char → Option (List Char × List Char)
  | 0, _ => none
  | _ + 1, [] => none
  | fuel + 1, c :: rest =>
    if c = '"' then some ([], rest)
    else if c = '\\' then
      match rest with
      | [] => none
      | e :: rest2 =>
        let cont (d : Char) (r : List Char) : Option (List Char × List Char) :=
          match parseJStr fuel r with
          | some (s, r2) => some (d :: s, r2)
          | none => none
        if e = '"' then cont '"' rest2
        else if e = '\\' then cont '\\' rest2
        else if e = '/' then cont '/' rest2
        else if e = 'n' then cont '\n' rest2
        else if e = 't' then cont '\t' rest2
        else if e = 'r' then cont '\r' rest2
        else if e = 'b' then cont (Char.ofNat 8) rest2
        else if e = 'f' then cont (Char.ofNat 12) rest2
        else if e = 'u' then
          match rest2 with
          | h1 :: h2 :: h3 :: h4 :: rest3 =>
            if isHexDigit h1 && isHexDigit h2 && isHexDigit h3 && isHexDigit h4 then
              let n := ((hexVal h1 * 16 + hexVal h2) * 16 + hexVal h3) * 16 + hexVal h4
              if n < 0xd800 ∨ (0xe000 ≤ n ∧ n < 0x110000) then cont (Char.ofNat n) rest3
              else none
            else none
          | _ => none
        else none
    else if c.toNat < 32 then none
    else
      match parseJStr fuel rest with
      | some (s, r2) => some (c :: s, r2)
      | none => none

/-- Parse an unsigned decimal integer (at least one digit). -/
def parseDigits : List Char → Option (Nat × List Char)
  | l =>
    let ds := l.takeWhile fun c => '0' ≤ c && c ≤ '9'
    if ds = [] then none
    else some (ds.foldl (fun acc c => acc * 10 + (c.toNat - '0'.toNat)) 0, l.drop ds.length)

mutual

/-- Fuel-indexed JSON value parser: returns the value and the unconsumed rest. -/
def parseJsonVal : Nat → List Char → Option (Json × List Char)
  | 0, _ => none
  | fuel + 1, l =>
    match skipWs l with
    | 'n' :: 'u' :: 'l' :: 'l' :: rest => some (.null, rest)
    | 't' :: 'r' :: 'u' :: 'e' :: rest => some (.bool true, rest)
    | 'f' :: 'a' :: 'l' :: 's' :: 'e' :: rest => some (.bool false, rest)
    | '"' :: rest =>
      match parseJStr (fuel + 1) rest with
      | some (s, rest2) => some (.str (String.mk s), rest2)
      | none => none
    | '[' :: rest =>
      (match skipWs rest with
       | ']' :: rest2 => some (.arr [], rest2)
       | _ =>
         match parseJsonItems fuel rest with
         | some (xs, rest2) => some (.arr xs, rest2)
         | none => none)
    | '{' :: rest =>
      (match skipWs rest with
       | '}' :: rest2 => some (.obj [], rest2)
       | _ =>
         match parseJsonFields fuel rest with
         | some (fs, rest2) => some (.obj fs, rest2)
         | none => none)
    | '-' :: rest =>
      (match parseDigits rest with
       | some (n, rest2) => some (.num (-(n : Int)), rest2)
       | none => none)
    | c :: rest =>
      if '0' ≤ c && c ≤ '9' then
        match parseDigits (c :: rest) with
        | some (n, rest2) => some (.num (n : Int), rest2)
        | none => none
      else none
    | [] => none

/-- Comma-separated JSON array items, up to and including the closing `]`. -/
def parseJsonItems : Nat → List Char → Option (List Json × List Char)
  | 0, _ => none
  | fuel + 1, l =>
    match parseJsonVal fuel l with
    | none => none
    | some (x, rest) =>
      match skipWs rest with
      | ',' :: rest2 =>
        (match parseJsonItems fuel rest2 with
         | some (xs, rest3) => some (x :: xs, rest3)
         | none => none)
      | ']' :: rest2 => some ([x], rest2)
      | _ => none

/-- Comma-separated JSON object fields, up to and including the closing `}`. -/
def parseJsonFields : Nat → List Char → Option (List (String × Json) × List Char)
  | 0, _ => none
  | fuel + 1, l =>
    match skipWs l with
    | '"' :: rest =>
      (match parseJStr (fuel + 1) rest with
       | none => none
       | some (k, rest2) =>
         match skipWs rest2 with
         | ':' :: rest3 =>
           (match parseJsonVal fuel rest3 with
            | none => none
            | some (v, rest4) =>
              match skipWs rest4 with
              | ',' :: rest5 =>
                (match parseJsonFields fuel rest5 with
                 | some (fs, rest6) => some ((String.mk k, v) :: fs, rest6)
                 | none => none)
              | '}' :: rest5 => some ([(String.mk k, v)], rest5)
              | _ => none)
         | _ => none)
    | _ => none

end

/-- `JSON.parse`: `none` models a thrown `SyntaxError`. -/
def jsonParse (s : String) : Option Json :=
  match parseJsonVal (s.data.length + 1) s.data with
  | some (j, rest) => if skipWs rest = [] then some j else none
  | none => none

/-! ## Data model (the `client.ts` interfaces) -/

/-- One `fhirBundleContains` requirement / manifest bundle item:
`{ resourceType, profile?: string[] }`. -/
structure BundleSpec where
  resourceType : String
  profile : Option (List String)
deriving DecidableEq

/-- `constraints.fhirVersion : string | string[]`. -/
inductive StrOrList where
  | one (s : String)
  | many (l : List String)
deriving DecidableEq

structure Constraints where
  fhirVersion : StrOrList
  fhirBundleContains : List BundleSpec
  optional : Bool
deriving DecidableEq

/-- The fixed `format` requirement `{ shc_vc: { alg: ["ES256"] } }`. -/
structure FormatReq where
  shc_vc_alg : List String
deriving DecidableEq

structure InputDescriptor where
  id : String
  name : String
  purpose : Option String
  format : FormatReq
  constraints : Constraints
deriving DecidableEq

structure PresentationDefinition where
  id : String
  input_descriptors : List InputDescriptor
deriving DecidableEq

/-- `{ shc, fhirVersion, fhirBundleContains }`: one stored credential with
its matching metadata. -/
structure ManifestEntry where
  shc : String
  fhirVersion : String
  fhirBundleContains : List BundleSpec
deriving DecidableEq

def es256Format : FormatReq := { shc_vc_alg := ["ES256"] }

def insuranceDescriptor : InputDescriptor :=
  { id := "insurance",
    name := "SMART Health Insurance Card",
    purpose := some "Access Health Insurance Card",
    format := es256Format,
    constraints :=
      { fhirVersion := .many ["4.*"],
        fhirBundleContains := [
          { resourceType := "Patient", profile := none },
          { resourceType := "Coverage", profile := none }],
        optional := false } }

def digitalInsurancePresentationDefinition : PresentationDefinition :=
  { id := "https://smarthealth.cards/scope#insurance",
    input_descriptors := [insuranceDescriptor] }

def covidVaccineDescriptor : InputDescriptor :=
  { id := "covid-vaccine",
    name := "COVID-19 Vaccine Card",
    purpose := some "Access COVID-19 Vaccine Card",
    format := es256Format,
    constraints :=
      { fhirVersion := .many ["4.*"],
        fhirBundleContains := [
          { resourceType := "Patient", profile := none },
          { resourceType := "Observation",
            profile := some
              ["http://hl7.org/fhir/uv/shc-vaccination/StructureDefinition/shc-vaccination-ad"] }],
        optional := false } }

def covidVaccinePresentationDefinition : PresentationDefinition :=
  { id := "https://smarthealth.cards/scope#covid-vaccine",
    input_descriptors := [covidVaccineDescriptor] }

/-- `Object.fromEntries([...].map((d) => [d.id, d]))`. -/
def scopesRegistry : List (String × PresentationDefinition) :=
  [digitalInsurancePresentationDefinition, covidVaccinePresentationDefinition].map
    fun d => (d.id, d)

/-! ## Constraint matcher (`findManifestEntries`) -/

/-- Tokens of the regex built by
`new RegExp(v.replaceAll(".", ".").replaceAll("*", ".*"))`: a `*` becomes
`.*` (`star`), a `.` stays the regex `.` (`any`: any character except a line
terminator), and every other character is a literal.  The translation is
faithful for patterns whose remaining characters carry no regex meaning. -/
inductive Tok where
  | lit (c : Char)
  | any
  | star
deriving DecidableEq

/-- The JS regex `.` matches everything except a line terminator. -/
def notLineTerm (c : Char) : Bool :=
  c != '\n' && c != '\r' && c.toNat != 0x2028 && c.toNat != 0x2029

def compileVersionPattern (p : String) : List Tok :=
  p.data.map fun c => if c = '*' then .star else if c = '.' then .any else .lit c

/-- Does the token list match some prefix of the character list?
(The regex attempted at a single start position.) -/
def toksMatchFrom : List Tok → List Char → Bool
  | [], _ => true
  | .lit c :: ts, d :: ds => c == d && toksMatchFrom ts ds
  | .any :: ts, d :: ds => notLineTerm d && toksMatchFrom ts ds
  | .star :: ts, ds =>
    toksMatchFrom ts ds ||
      match ds with
      | [] => false
      | d :: ds2 => notLineTerm d && toksMatchFrom (.star :: ts) ds2
  | .lit _ :: _, [] => false
  | .any :: _, [] => false
termination_by ts ds => (ds.length, ts.length)

/-- `version.match(regex)` truthiness: the regex is tried at every start
position (unanchored search). -/
def searchToks (ts : List Tok) : List Char → Bool
  | [] => toksMatchFrom ts []
  | d :: s2 => toksMatchFrom ts (d :: s2) || searchToks ts s2

/-- One version pattern, compiled as the code compiles it, tested against a
version string as `e.fhirVersion.match(v)` tests it. -/
def versionPatternTest (p v : String) : Bool :=
  searchToks (compileVersionPattern p) v.data

/-- The element type of the compiled `constraints` array. -/
structure CompiledConstraint where
  optional : Bool
  fhirVersions : List (List Tok)
  fhirBundleContains : List BundleSpec

/-- `typeof d.constraints.fhirVersion === "string" ? [x] : x`. -/
def normalizeVersions : StrOrList → List String
  | .one s => [s]
  | .many l => l

def compileDescriptor (d : InputDescriptor) : CompiledConstraint :=
  { optional := d.constraints.optional,
    fhirVersions := (normalizeVersions d.constraints.fhirVersion).map compileVersionPattern,
    fhirBundleContains := d.constraints.fhirBundleContains }

/-- The innermost predicate: one required bundle spec against one entry
bundle item (`resourceType` equality, and when the requirement declares a
`profile` list, some common profile; an absent entry profile list never
matches). -/
def bundleItemOk (cb eb : BundleSpec) : Bool :=
  cb.resourceType == eb.resourceType &&
    match cb.profile with
    | none => true
    | some cps =>
      cps.any fun cp =>
        match eb.profile with
        | none => false
        | some eps => eps.any fun ep => ep == cp

def bundleOk (cbs : List BundleSpec) (e : ManifestEntry) : Bool :=
  cbs.all fun cb => e.fhirBundleContains.any fun eb => bundleItemOk cb eb

def versionOk (pats : List (List Tok)) (e : ManifestEntry) : Bool :=
  pats.any fun ts => searchToks ts e.fhirVersion.data

def constraintOk (c : CompiledConstraint) (e : ManifestEntry) : Bool :=
  c.optional || (versionOk c.fhirVersions e && bundleOk c.fhirBundleContains e)

/-- `findManifestEntries(requirements, manifest)`. -/
def findManifestEntries (requirements : PresentationDefinition)
    (manifest : List ManifestEntry) : List ManifestEntry :=
  let constraints := requirements.input_descriptors.map compileDescriptor
  manifest.filter fun e => constraints.all fun c => constraintOk c e

/-- One input descriptor's compiled constraint evaluated on one entry. -/
def descriptorSatisfied (d : InputDescriptor) (e : ManifestEntry) : Bool :=
  constraintOk (compileDescriptor d) e

/-! ## Authorization request builder -/

/-- `serverConfig.ISS`. -/
def serverConfigISS : String := "https://example.org/shc-wallet"

/-- The fixed `client_metadata` object literal of `prepareToAuthorize`. -/
def clientMetadataJson : Json :=
  .obj [("vp_formats", .obj [
    ("jwt_vp_json", .obj [("alg", .arr [.str "none"])]),
    ("shc_vc", .obj [("alg", .arr [.str "ES256"])])])]

structure VP_Request where
  presentation_definition : Option PresentationDefinition
  presentation_definition_uri : Option String
  scope : Option String
  nonce : String
  client_id : String
  redirect_uri : String
  client_metadata : Json
  response_type : String

def bundleSpecToJson (b : BundleSpec) : Json :=
  .obj ([("resourceType", .str b.resourceType)] ++
    match b.profile with
    | some ps => [("profile", .arr (ps.map .str))]
    | none => [])

def constraintsToJson (c : Constraints) : Json :=
  .obj [("fhirVersion",
          match c.fhirVersion with
          | .one s => .str s
          | .many l => .arr (l.map .str)),
        ("fhirBundleContains", .arr (c.fhirBundleContains.map bundleSpecToJson)),
        ("optional", .bool c.optional)]

def formatToJson (f : FormatReq) : Json :=
  .obj [("shc_vc", .obj [("alg", .arr (f.shc_vc_alg.map .str))])]

def descriptorToJson (d : InputDescriptor) : Json :=
  .obj ([("id", .str d.id), ("name", .str d.name)] ++
    (match d.purpose with
     | some p => [("purpose", .str p)]
     | none => []) ++
    [("format", formatToJson d.format), ("constraints", constraintsToJson d.constraints)])

def pdToJson (pd : PresentationDefinition) : Json :=
  .obj [("id", .str pd.id),
        ("input_descriptors", .arr (pd.input_descriptors.map descriptorToJson))]

/-- `Object.entries(req)` with each object-valued field `JSON.stringify`ed to
a string (entry order is irrelevant downstream because `queryString.stringify`
sorts keys; absent optional fields produce no entry). -/
def serializeReq (req : VP_Request) : List (String × String) :=
  [("client_id", req.client_id),
   ("redirect_uri", req.redirect_uri),
   ("client_metadata", jsonStringify req.client_metadata)] ++
  (match req.presentation_definition with
   | some pd => [("presentation_definition", jsonStringify (pdToJson pd))]
   | none => []) ++
  (match req.presentation_definition_uri with
   | some u => [("presentation_definition_uri", u)]
   | none => []) ++
  (match req.scope with
   | some s => [("scope", s)]
   | none => []) ++
  [("nonce", req.nonce), ("response_type", req.response_type)]

/-- Lexicographic code-point comparison (the default JS `Array.sort` order
on the ASCII keys involved). -/
def charListLt : List Char → List Char → Bool
  | [], [] => false
  | [], _ :: _ => true
  | _ :: _, [] => false
  | a :: as, b :: bs =>
    if a.toNat < b.toNat then true
    else if b.toNat < a.toNat then false
    else charListLt as bs

def keyLt (a b : String) : Bool :=
  charListLt a.data b.data

def insertByKey (p : String × String) :
    List (String × String) → List (String × String)
  | [] => [p]
  | q :: rest => if keyLt q.1 p.1 then q :: insertByKey p rest else p :: q :: rest

/-- Keys sorted lexicographically, as `queryString.stringify` sorts them. -/
def sortByKey : List (String × String) → List (String × String)
  | [] => []
  | p :: rest => insertByKey p (sortByKey rest)

/-- One `key=value` pair, both sides strict percent-encoded. -/
def qsPiece (p : String × String) : List Char :=
  percentEncode p.1.data ++ '=' :: percentEncode p.2.data

/-- `queryString.stringify`: keys sorted, keys and values strict
percent-encoded, pairs written `key=value` and joined with `&`. -/
def qsStringify (entries : List (String × String)) : List Char :=
  joinSep '&' ((sortByKey entries).map qsPiece)

/-- `scope.join(" ")`. -/
def joinSpace (l : List String) : String :=
  String.intercalate " " l

/-- `Client.prepareToAuthorize` with the generated nonce externalized;
`endpoint` is `provider.configuration.authorization_endpoint`.  Returns
`{ req, url }`. -/
def prepareToAuthorize (client_id endpoint : String) (scopeList : List String)
    (nonce : String) : VP_Request × String :=
  let req : VP_Request :=
    { presentation_definition := none,
      presentation_definition_uri := none,
      scope := some (joinSpace scopeList),
      nonce := nonce,
      client_id := client_id,
      redirect_uri := client_id,
      client_metadata := clientMetadataJson,
      response_type := "vp_token" }
  (req, endpoint ++ "?" ++ String.mk (qsStringify (serializeReq req)))

/-! ## Authorization request parser and validator -/

/-- A query-string field as JS sees it: missing (`undefined`), present
without `=` (`null`), or a string. -/
inductive QVal where
  | absent
  | null
  | str (s : String)
deriving DecidableEq

/-- `queryString.parse`: strip one leading `?`/`#`/`&`, split on `&`, skip
empty parameters, split each parameter at the first `=` (no `=` means a
`null` value) and percent-decode keys and values.  (Accumulation of duplicate
keys into arrays is outside the model; the pipeline looks up each key once.) -/
def qsParsePairs (l : List Char) : List (String × Option String) :=
  ((jsSplitChar '&' (stripLead l)).filter fun part => !part.isEmpty).map fun part =>
    match splitFirst '=' part with
    | (k, none) => (String.mk (percentDecode k), none)
    | (k, some v) => (String.mk (percentDecode k), some (String.mk (percentDecode v)))

/-- `aParsedRaw`: the parsed query fields the pipeline reads. -/
structure RawQuery where
  presentation_definition : QVal
  presentation_definition_uri : QVal
  scope : QVal
  nonce : QVal
  client_id : QVal
  redirect_uri : QVal
  client_metadata : QVal
  response_type : QVal
deriving DecidableEq

def lookupQ (key : String) : List (String × Option String) → QVal
  | [] => .absent
  | (k, v) :: rest =>
    if k = key then
      match v with
      | none => .null
      | some s => .str s
    else lookupQ key rest

def toRawQuery (pairs : List (String × Option String)) : RawQuery :=
  { presentation_definition := lookupQ "presentation_definition" pairs,
    presentation_definition_uri := lookupQ "presentation_definition_uri" pairs,
    scope := lookupQ "scope" pairs,
    nonce := lookupQ "nonce" pairs,
    client_id := lookupQ "client_id" pairs,
    redirect_uri := lookupQ "redirect_uri" pairs,
    client_metadata := lookupQ "client_metadata" pairs,
    response_type := lookupQ "response_type" pairs }

inductive PipelineError where
  | malformedJson
  | clientBinding
  | typeError
deriving DecidableEq

/-- `aParsed` after the two `JSON.parse` calls. -/
structure ParsedRequest where
  presentation_definition : Option Json
  client_metadata : Json
  scope : QVal
  nonce : QVal
  client_id : QVal
  redirect_uri : QVal
  presentation_definition_uri : QVal
  response_type : QVal

/-- `JSON.parse(aParsedRaw.presentation_definition || "null") || undefined`:
a falsy raw field falls back to the string `"null"`, and a falsy parse result
becomes `undefined` (`none`). -/
def parsePdField (v : QVal) : Except PipelineError (Option Json) :=
  let s : String :=
    match v with
    | .str s => if s = "" then "null" else s
    | _ => "null"
  match jsonParse s with
  | none => .error .malformedJson
  | some j => .ok (if j.truthy then some j else none)

/-- `JSON.parse(aParsedRaw.client_metadata)`: `JSON.parse(undefined)` throws,
`JSON.parse(null)` succeeds with `null`. -/
def parseCmField : QVal → Except PipelineError Json
  | .absent => .error .malformedJson
  | .null => .ok .null
  | .str s =>
    match jsonParse s with
    | none => .error .malformedJson
    | some j => .ok j

/-- The `aParsed` construction followed by the
`client_id !== redirect_uri` fatal check. -/
def parseRequest (raw : RawQuery) : Except PipelineError ParsedRequest :=
  match parsePdField raw.presentation_definition with
  | .error e => .error e
  | .ok pd =>
    match parseCmField raw.client_metadata with
    | .error e => .error e
    | .ok cm =>
      if raw.client_id ≠ raw.redirect_uri then .error .clientBinding
      else .ok { presentation_definition := pd, client_metadata := cm,
                 scope := raw.scope, nonce := raw.nonce,
                 client_id := raw.client_id, redirect_uri := raw.redirect_uri,
                 presentation_definition_uri := raw.presentation_definition_uri,
                 response_type := raw.response_type }

/-- `queryString.parse(a.url.split("?")[1])` followed by the `aParsed`
validation. -/
def parseUrl (url : String) : Except PipelineError ParsedRequest :=
  parseRequest (toRawQuery (qsParsePairs ((jsSplitChar '?' url.data).getD 1 [])))

/-- `scopes[aParsed.scope!]`: exact key lookup, a missing key gives
`undefined`. -/
def resolveScope : QVal → Option PresentationDefinition
  | .str s => scopesRegistry.lookup s
  | _ => none

/-- `findManifestEntries(scopes[aParsed.scope!], shcManifest)`: when the scope
is not a registered key, `findManifestEntries` receives `undefined` and
reading `.input_descriptors` throws a `TypeError` before any entry is
examined. -/
def matchStep (parsed : ParsedRequest) (manifest : List ManifestEntry) :
    Except PipelineError (List ManifestEntry) :=
  match resolveScope parsed.scope with
  | none => .error .typeError
  | some d => .ok (findManifestEntries d manifest)

/-- The demo pipeline from query fields to matched entries: parse/validate,
then resolve the scope and match. -/
def processQuery (raw : RawQuery) (manifest : List ManifestEntry) :
    Except PipelineError (List ManifestEntry) :=
  match parseRequest raw with
  | .error e => .error e
  | .ok parsed => matchStep parsed manifest

def isOkE : Except ε α → Bool
  | .ok _ => true
  | .error _ => false

/-! ## Presentation token assembler (`createVp`) -/

/-- The `vp` container (`@context` is the `context` field). -/
structure VPContainer where
  context : List String
  type : List String
  verifiableCredential : List String

structure VP_Token_Payload where
  iss : String
  jti : String
  aud : String
  nbf : Nat
  iat : Nat
  exp : Nat
  nonce : String
  vp : VPContainer

/-- `createVp` with the clock reading and generated `jti` externalized:
`setIssuedAt()` and `setNotBefore("0min")` read the same instant `now`, and
`setExpirationTime("5min")` is `now + 300` seconds. -/
def createVp (jws : List String) (nonce client_id : String) (now : Nat)
    (jti : String) : VP_Token_Payload :=
  { iss := serverConfigISS,
    jti := jti,
    aud := client_id,
    nbf := now,
    iat := now,
    exp := now + 300,
    nonce := nonce,
    vp := { context := ["https://www.w3.org/2018/credentials/v1"],
            type := ["VerifiablePresentation"],
            verifiableCredential := jws } }

/-! ## Specification-side definitions (for comparison with the code) -/

/-- Token-list exact match of a whole character list: used to state what the
code's unanchored search amounts to on each matched substring. -/
def tokensExact : List Tok → List Char → Bool
  | [], [] => true
  | [], _ :: _ => false
  | .lit c :: ts, d :: ds => c == d && tokensExact ts ds
  | .any :: ts, d :: ds => notLineTerm d && tokensExact ts ds
  | .star :: ts, ds =>
    tokensExact ts ds ||
      match ds with
      | [] => false
      | d :: ds2 => notLineTerm d && tokensExact (.star :: ts) ds2
  | .lit _ :: _, [] => false
  | .any :: _, [] => false
termination_by ts ds => (ds.length, ts.length)

/-- The version-pattern semantics exactly as the specification words it: a
`*` matches any character sequence at its position, every literal character
(including `.`) matches exactly that character, and the whole version string
is matched against the whole pattern. -/
def specGlobMatches : List Char → List Char → Bool
  | [], [] => true
  | [], _ :: _ => false
  | p :: ps, ds =>
    if p = '*' then
      specGlobMatches ps ds ||
        match ds with
        | [] => false
        | _ :: ds2 => specGlobMatches (p :: ps) ds2
    else
      match ds with
      | [] => false
      | d :: ds2 => p == d && specGlobMatches ps ds2
termination_by ps ds => (ds.length, ps.length)

/-- The claimed glob semantics of one version pattern over one version
string. -/
def specGlobVersionMatch (p v : String) : Bool :=
  specGlobMatches p.data v.data

/-- Characters with special meaning in a JS regex besides `*` and `.`;
`compileVersionPattern` is only a faithful translation of the `RegExp`
constructor for patterns avoiding these. -/
def isRegexMeta (c : Char) : Bool :=
  c = '\\' || c = '^' || c = '$' || c = '+' || c = '?' || c = '(' || c = ')' ||
  c = '[' || c = ']' || c.toNat = 0x7b || c.toNat = 0x7d || c = '|'

/-- All code points of a string are ASCII (single-byte percent-encoding is
only modelled for these). -/
def asciiOnly (s : String) : Bool :=
  s.data.all fun c => c.toNat < 128

/-- The demo manifest entry (shortened credential payload): FHIR version
`4.0.1`, bundle `[Patient, Coverage]`. -/
def demoEntry : ManifestEntry :=
  { shc := "eyJ6aXAiOiJERUYi",
    fhirVersion := "4.0.1",
    fhirBundleContains := [
      { resourceType := "Patient", profile := none },
      { resourceType := "Coverage", profile := none }] }

/-- A query whose `client_id` equals its `redirect_uri` but whose
`client_metadata` is missing. -/
def noMetadataQuery : RawQuery :=
  { presentation_definition := .absent, presentation_definition_uri := .absent,
    scope := .absent, nonce := .absent,
    client_id := .str "http://localhost:8080",
    redirect_uri := .str "http://localhost:8080",
    client_metadata := .absent, response_type := .absent }

/-- A query with well-formed fields but different `client_id` and
`redirect_uri`. -/
def mismatchQuery : RawQuery :=
  { presentation_definition := .absent, presentation_definition_uri := .absent,
    scope := .str "https://smarthealth.cards/scope#insurance",
    nonce := .str "n-1",
    client_id := .str "http://localhost:8080",
    redirect_uri := .str "http://evil.example",
    client_metadata := .str "null", response_type := .str "vp_token" }

/-- An optional variant of the insurance descriptor (for the C4 scenario). -/
def optionalDescriptor : InputDescriptor :=
  { insuranceDescriptor with
    constraints := { insuranceDescriptor.constraints with optional := true } }

/-- An entry violating every version and bundle requirement. -/
def violatingEntry : ManifestEntry :=
  { shc := "x", fhirVersion := "9.9.9", fhirBundleContains := [] }

/-! ## Helper lemmas -/

theorem isHexDigit_hexDigitChar : ∀ n, n < 16 → isHexDigit (hexDigitChar n) = true := by
  decide

theorem hexVal_hexDigitChar : ∀ n, n < 16 → hexVal (hexDigitChar n) = n := by
  decide

/-- Every character of a percent-encoded output is unreserved, a `%`, or a
hex digit. -/
theorem percentEncodeChar_class (c c' : Char) (h : c' ∈ percentEncodeChar c) :
    isUnreservedChar c' = true ∨ c' = '%' ∨ isHexDigit c' = true := by
  rw [percentEncodeChar] at h
  by_cases hu : isUnreservedChar c
  · rw [if_pos hu] at h
    rcases List.mem_singleton.mp h with rfl
    exact Or.inl hu
  · rw [if_neg hu] at h
    simp only [List.mem_cons, List.not_mem_nil, or_false] at h
    rcases h with rfl | rfl | rfl
    · exact Or.inr (Or.inl rfl)
    · exact Or.inr (Or.inr (isHexDigit_hexDigitChar _ (Nat.mod_lt _ (by omega))))
    · exact Or.inr (Or.inr (isHexDigit_hexDigitChar _ (Nat.mod_lt _ (by omega))))

theorem percentEncode_class (l : List Char) (c' : Char) (h : c' ∈ percentEncode l) :
    isUnreservedChar c' = true ∨ c' = '%' ∨ isHexDigit c' = true := by
  rw [percentEncode] at h
  obtain ⟨c, _, hc⟩ := List.mem_flatMap.mp h
  exact percentEncodeChar_class c c' hc

/-- Percent-encoded output never contains a separator character. -/
theorem percentEncode_no_sep (l : List Char) (c : Char) (h : c ∈ percentEncode l) :
    c ≠ '&' ∧ c ≠ '=' ∧ c ≠ '?' ∧ c ≠ '#' := by
  rcases percentEncode_class l c h with hc | hc | hc
  · refine ⟨?_, ?_, ?_, ?_⟩ <;> (rintro rfl; exact absurd hc (by decide))
  · subst hc
    refine ⟨by decide, by decide, by decide, by decide⟩
  · refine ⟨?_, ?_, ?_, ?_⟩ <;> (rintro rfl; exact absurd hc (by decide))

/-- Decoding a character other than `%`: one step. -/
theorem percentDecode_cons_ne (c : Char) (rest : List Char) (hc : c ≠ '%') :
    percentDecode (c :: rest) = c :: percentDecode rest := by
  rw [percentDecode, if_neg hc]

/-- Decoding a valid percent escape: one step. -/
theorem percentDecode_pct (h1 h2 : Char) (rest : List Char)
    (hh : (isHexDigit h1 && isHexDigit h2) = true) :
    percentDecode ('%' :: h1 :: h2 :: rest) =
      Char.ofNat (hexVal h1 * 16 + hexVal h2) :: percentDecode rest := by
  rw [percentDecode, if_pos rfl, pctAfter, if_pos hh]

/-- Decoding undoes encoding, one ASCII character at a time. -/
theorem percentDecode_encChar (c : Char) (rest : List Char) (hc : c.toNat < 128) :
    percentDecode (percentEncodeChar c ++ rest) = c :: percentDecode rest := by
  rw [percentEncodeChar]
  by_cases hu : isUnreservedChar c
  · rw [if_pos hu, List.singleton_append]
    refine percentDecode_cons_ne c rest fun hc' => ?_
    subst hc'
    exact absurd hu (by decide)
  · rw [if_neg hu, List.cons_append, List.cons_append, List.cons_append, List.nil_append]
    rw [percentDecode_pct _ _ _ (by
      rw [Bool.and_eq_true]
      exact ⟨isHexDigit_hexDigitChar _ (Nat.mod_lt _ (by omega)),
             isHexDigit_hexDigitChar _ (Nat.mod_lt _ (by omega))⟩)]
    rw [hexVal_hexDigitChar _ (Nat.mod_lt _ (by omega)),
        hexVal_hexDigitChar _ (Nat.mod_lt _ (by omega))]
    have harith : c.toNat / 16 % 16 * 16 + c.toNat % 16 = c.toNat := by omega
    rw [harith, Char.ofNat_toNat]

/-- Percent-decoding inverts percent-encoding on ASCII strings. -/
theorem percentDecode_percentEncode (l : List Char) (h : ∀ c ∈ l, c.toNat < 128) :
    percentDecode (percentEncode l) = l := by
  induction l with
  | nil => rfl
  | cons c l' ih =>
    rw [percentEncode, List.flatMap_cons, ← percentEncode]
    rw [percentDecode_encChar c (percentEncode l') (h c (List.mem_cons_self _ _))]
    rw [ih fun c' hc' => h c' (List.mem_cons_of_mem c hc')]
    
theorem splitFirst_no_sep (sep : Char) (l : List Char) (hl : sep ∉ l) :
    splitFirst sep l = (l, none) := by
  induction l with
  | nil => rfl
  | cons c rest ih =>
    rw [splitFirst, if_neg (fun hc => hl (List.mem_cons.mpr (Or.inl hc.symm))),
        ih fun hr => hl (List.mem_cons_of_mem c hr)]

theorem splitFirst_append (sep : Char) (k v : List Char) (hk : sep ∉ k) :
    splitFirst sep (k ++ sep :: v) = (k, some v) := by
  induction k with
  | nil => rw [List.nil_append, splitFirst, if_pos rfl]
  | cons c rest ih =>
    rw [List.cons_append, splitFirst,
        if_neg (fun hc => hk (List.mem_cons.mpr (Or.inl hc.symm))),
        ih fun hr => hk (List.mem_cons_of_mem c hr)]

theorem jsSplitChar_ne_nil (sep : Char) (l : List Char) : jsSplitChar sep l ≠ [] := by
  cases l with
  | nil => rw [jsSplitChar]; exact List.cons_ne_nil _ _
  | cons c rest =>
    rw [jsSplitChar]
    cases jsSplitChar sep rest with
    | nil =>
      dsimp only
      by_cases hc : c = sep
      · rw [if_pos hc]; exact List.cons_ne_nil _ _
      · rw [if_neg hc]; exact List.cons_ne_nil _ _
    | cons h t =>
      dsimp only
      by_cases hc : c = sep
      · rw [if_pos hc]; exact List.cons_ne_nil _ _
      · rw [if_neg hc]; exact List.cons_ne_nil _ _

theorem jsSplitChar_no_sep (sep : Char) (l : List Char) (hl : sep ∉ l) :
    jsSplitChar sep l = [l] := by
  induction l with
  | nil => rfl
  | cons c rest ih =>
    rw [jsSplitChar, ih fun hr => hl (List.mem_cons_of_mem c hr)]
    dsimp only
    rw [if_neg (fun hc => hl (List.mem_cons.mpr (Or.inl hc.symm)))]

theorem jsSplitChar_append_sep (sep : Char) (a b : List Char) (ha : sep ∉ a) :
    jsSplitChar sep (a ++ sep :: b) = a :: jsSplitChar sep b := by
  induction a with
  | nil =>
    rw [List.nil_append, jsSplitChar]
    cases hsp : jsSplitChar sep b with
    | nil => exact absurd hsp (jsSplitChar_ne_nil sep b)
    | cons h t =>
      dsimp only
      rw [if_pos rfl, ← hsp]
  | cons c rest ih =>
    rw [List.cons_append, jsSplitChar,
        ih fun hr => ha (List.mem_cons_of_mem c hr)]
    dsimp only
    rw [if_neg (fun hc => ha (List.mem_cons.mpr (Or.inl hc.symm)))]

theorem mem_joinSep (sep : Char) :
    ∀ (pieces : List (List Char)) (c : Char), c ∈ joinSep sep pieces →
      c = sep ∨ ∃ p ∈ pieces, c ∈ p
  | [], c, h => absurd h (List.not_mem_nil c)
  | [x], c, h => Or.inr ⟨x, List.mem_cons_self _ _, by rwa [joinSep] at h⟩
  | x :: y :: rest, c, h => by
    rw [joinSep] at h
    rcases List.mem_append.mp h with h | h
    · exact Or.inr ⟨x, List.mem_cons_self _ _, h⟩
    · rcases List.mem_cons.mp h with rfl | h
      · exact Or.inl rfl
      · rcases mem_joinSep sep (y :: rest) c h with h | ⟨p, hp, hcp⟩
        · exact Or.inl h
        · exact Or.inr ⟨p, List.mem_cons_of_mem x hp, hcp⟩

theorem jsSplitChar_joinSep (sep : Char) :
    ∀ (pieces : List (List Char)), pieces ≠ [] →
      (∀ p ∈ pieces, sep ∉ p) →
      jsSplitChar sep (joinSep sep pieces) = pieces
  | [], h, _ => absurd rfl h
  | [x], _, hsep => by
    rw [joinSep, jsSplitChar_no_sep sep x (hsep x (List.mem_cons_self _ _))]
  | x :: y :: rest, _, hsep => by
    rw [joinSep,
        jsSplitChar_append_sep sep x (joinSep sep (y :: rest)) (hsep x (List.mem_cons_self _ _)),
        jsSplitChar_joinSep sep (y :: rest) (List.cons_ne_nil y rest)
          fun p hp => hsep p (List.mem_cons_of_mem x hp)]

theorem mem_insertByKey (p q : String × String) (l : List (String × String)) :
    q ∈ insertByKey p l ↔ q = p ∨ q ∈ l := by
  induction l with
  | nil => rw [insertByKey]; simp
  | cons r rest ih =>
    rw [insertByKey]
    by_cases h : keyLt r.1 p.1
    · rw [if_pos h]
      simp only [List.mem_cons, ih]
      tauto
    · rw [if_neg h]
      simp only [List.mem_cons]

theorem mem_sortByKey (q : String × String) (l : List (String × String)) :
    q ∈ sortByKey l ↔ q ∈ l := by
  induction l with
  | nil => exact Iff.rfl
  | cons p rest ih =>
    rw [sortByKey, mem_insertByKey, ih, List.mem_cons]

theorem length_insertByKey (p : String × String) (l : List (String × String)) :
    (insertByKey p l).length = l.length + 1 := by
  induction l with
  | nil => rfl
  | cons q rest ih =>
    rw [insertByKey]
    by_cases h : keyLt q.1 p.1
    · rw [if_pos h, List.length_cons, ih, List.length_cons]
    · rw [if_neg h, List.length_cons, List.length_cons]

theorem length_sortByKey (l : List (String × String)) :
    (sortByKey l).length = l.length := by
  induction l with
  | nil => rfl
  | cons p rest ih =>
    rw [sortByKey, length_insertByKey, ih, List.length_cons]

theorem qsPiece_ne_nil (p : String × String) : qsPiece p ≠ [] := by
  intro h
  have := congrArg List.length h
  rw [qsPiece, List.length_append, List.length_cons] at this
  simp at this

/-- Every character of a `key=value` piece is the `=` or comes from one of
the two percent-encoded sides. -/
theorem mem_qsPiece (p : String × String) (c : Char) (h : c ∈ qsPiece p) :
    c = '=' ∨ c ∈ percentEncode p.1.data ∨ c ∈ percentEncode p.2.data := by
  rw [qsPiece] at h
  rcases List.mem_append.mp h with h | h
  · exact Or.inr (Or.inl h)
  · rcases List.mem_cons.mp h with rfl | h
    · exact Or.inl rfl
    · exact Or.inr (Or.inr h)

theorem qsPiece_no_amp (p : String × String) : '&' ∉ qsPiece p := by
  intro h
  rcases mem_qsPiece p '&' h with h | h | h
  · exact absurd h (by decide)
  · exact absurd rfl (percentEncode_no_sep _ _ h).1
  · exact absurd rfl (percentEncode_no_sep _ _ h).1

theorem qsPiece_head_ok (p : String × String) (c : Char) (rest : List Char)
    (h : qsPiece p = c :: rest) : ¬(c = '?' ∨ c = '#' ∨ c = '&') := by
  intro hbad
  have hc : c ∈ qsPiece p := h ▸ List.mem_cons_self _ _
  rcases mem_qsPiece p c hc with hc' | hc' | hc'
  · subst hc'
    rcases hbad with h' | h' | h' <;> exact absurd h' (by decide)
  · rcases hbad with rfl | rfl | rfl
    · exact absurd rfl (percentEncode_no_sep _ _ hc').2.2.1
    · exact absurd rfl (percentEncode_no_sep _ _ hc').2.2.2
    · exact absurd rfl (percentEncode_no_sep _ _ hc').1
  · rcases hbad with rfl | rfl | rfl
    · exact absurd rfl (percentEncode_no_sep _ _ hc').2.2.1
    · exact absurd rfl (percentEncode_no_sep _ _ hc').2.2.2
    · exact absurd rfl (percentEncode_no_sep _ _ hc').1

theorem joinSep_cons (sep : Char) (x : List Char) (ps : List (List Char)) :
    ∃ t, joinSep sep (x :: ps) = x ++ t := by
  cases ps with
  | nil => exact ⟨[], (List.append_nil x).symm⟩
  | cons y rest => exact ⟨sep :: joinSep sep (y :: rest), rfl⟩

theorem qsStringify_no_qmark (entries : List (String × String)) :
    '?' ∉ qsStringify entries := by
  intro h
  rw [qsStringify] at h
  rcases mem_joinSep '&' _ _ h with h | ⟨p, hp, hcp⟩
  · exact absurd h (by decide)
  · obtain ⟨q, _, rfl⟩ := List.mem_map.mp hp
    rcases mem_qsPiece q _ hcp with h' | h' | h'
    · exact absurd h' (by decide)
    · exact (percentEncode_no_sep _ _ h').2.2.1 rfl
    · exact (percentEncode_no_sep _ _ h').2.2.1 rfl

/-- Parsing one encoded piece recovers the pair. -/
theorem parse_qsPiece (p : String × String)
    (h1 : asciiOnly p.1 = true) (h2 : asciiOnly p.2 = true) :
    (match splitFirst '=' (qsPiece p) with
     | (k, none) => (String.mk (percentDecode k), (none : Option String))
     | (k, some v) => (String.mk (percentDecode k), some (String.mk (percentDecode v)))) =
      (p.1, some p.2) := by
  rw [qsPiece, splitFirst_append '=' _ _
    (fun hmem => ((percentEncode_no_sep _ _ hmem).2.1 rfl))]
  dsimp only
  rw [percentDecode_percentEncode p.1.data
      (fun c hc => by
        have := List.all_eq_true.mp h1 c hc
        simpa using this),
      percentDecode_percentEncode p.2.data
      (fun c hc => by
        have := List.all_eq_true.mp h2 c hc
        simpa using this)]

/-- `queryString.parse` inverts `queryString.stringify` on ASCII entries
(up to the key sorting that `stringify` performs). -/
theorem qsParsePairs_qsStringify (entries : List (String × String))
    (hne : entries ≠ [])
    (hascii : ∀ p ∈ entries, asciiOnly p.1 = true ∧ asciiOnly p.2 = true) :
    qsParsePairs (qsStringify entries) =
      (sortByKey entries).map fun p => (p.1, some p.2) := by
  have hsorted : ∀ p ∈ sortByKey entries, asciiOnly p.1 = true ∧ asciiOnly p.2 = true :=
    fun p hp => hascii p ((mem_sortByKey p entries).mp hp)
  have hpieces_ne : (sortByKey entries).map qsPiece ≠ [] := by
    intro h
    have := congrArg List.length h
    rw [List.length_map, length_sortByKey] at this
    exact hne (List.eq_nil_of_length_eq_zero this)
  have hamp : ∀ q ∈ (sortByKey entries).map qsPiece, '&' ∉ q := by
    intro q hq
    obtain ⟨p, _, rfl⟩ := List.mem_map.mp hq
    exact qsPiece_no_amp p
  -- the joined string does not begin with a strippable character
  have hstrip : stripLead (qsStringify entries) = qsStringify entries := by
    rw [qsStringify]
    cases hps : (sortByKey entries).map qsPiece with
    | nil => exact absurd hps hpieces_ne
    | cons x ps =>
      have hmem : x ∈ (sortByKey entries).map qsPiece := by
        rw [hps]; exact List.mem_cons_self _ _
      obtain ⟨p, _, hpx⟩ := List.mem_map.mp hmem
      subst hpx
      cases hq : qsPiece p with
      | nil => exact absurd hq (qsPiece_ne_nil p)
      | cons c xr =>
        obtain ⟨t, ht⟩ := joinSep_cons '&' (c :: xr) ps
        rw [ht, List.cons_append, stripLead, if_neg (qsPiece_head_ok p c xr hq)]
  rw [qsParsePairs, hstrip, qsStringify,
      jsSplitChar_joinSep '&' _ hpieces_ne hamp]
  have hfilter : ((sortByKey entries).map qsPiece).filter (fun part => !part.isEmpty) =
      (sortByKey entries).map qsPiece := by
    apply List.filter_eq_self.mpr
    intro q hq
    obtain ⟨p, _, rfl⟩ := List.mem_map.mp hq
    simp [List.isEmpty_iff, qsPiece_ne_nil p]
  rw [hfilter, List.map_map]
  apply List.map_congr_left
  intro p hp
  exact parse_qsPiece p (hsorted p hp).1 (hsorted p hp).2

/-- The unanchored search succeeds exactly when the tokens match a prefix of
some suffix of the character list. -/
theorem searchToks_iff (ts : List Tok) (s : List Char) :
    searchToks ts s = true ↔
      ∃ s1 s2, s = s1 ++ s2 ∧ toksMatchFrom ts s2 = true := by
  induction s with
  | nil =>
    rw [searchToks]
    constructor
    · intro h
      exact ⟨[], [], rfl, h⟩
    · rintro ⟨s1, s2, heq, hm⟩
      obtain ⟨rfl, rfl⟩ := List.append_eq_nil.mp heq.symm
      exact hm
  | cons d s' ih =>
    rw [searchToks, Bool.or_eq_true, ih]
    constructor
    · rintro (h | ⟨s1, s2, rfl, hm⟩)
      · exact ⟨[], d :: s', rfl, h⟩
      · exact ⟨d :: s1, s2, rfl, hm⟩
    · rintro ⟨s1, s2, heq, hm⟩
      cases s1 with
      | nil =>
        rw [List.nil_append] at heq
        exact Or.inl (heq ▸ hm)
      | cons a s1' =>
        rw [List.cons_append] at heq
        injection heq with h1 h2
        exact Or.inr ⟨s1', s2, h2, hm⟩

/-- A star token may also match the empty sequence: exact matches of `ts`
are exact matches of `star :: ts`. -/
theorem tokensExact_star_left (ts : List Tok) (s : List Char)
    (h : tokensExact ts s = true) : tokensExact (.star :: ts) s = true := by
  cases s with
  | nil =>
    simp only [tokensExact, Bool.or_eq_true]
    exact Or.inl h
  | cons a s' =>
    simp only [tokensExact, Bool.or_eq_true]
    exact Or.inl h

/-- A prefix match is an exact match of some prefix. -/
theorem toksMatchFrom_iff : ∀ (ts : List Tok) (s : List Char),
    toksMatchFrom ts s = true ↔
      ∃ s1 s2, s = s1 ++ s2 ∧ tokensExact ts s1 = true
  | [], s => by
    simp only [toksMatchFrom]
    constructor
    · intro _
      refine ⟨[], s, rfl, ?_⟩
      simp only [tokensExact]
    · intro _
      trivial
  | .lit c :: ts, [] => by
    simp only [toksMatchFrom]
    constructor
    · intro h
      exact absurd h Bool.false_ne_true
    · rintro ⟨s1, s2, heq, hex⟩
      obtain ⟨rfl, rfl⟩ := List.append_eq_nil.mp heq.symm
      simp only [tokensExact] at hex
      exact absurd hex Bool.false_ne_true
  | .any :: ts, [] => by
    simp only [toksMatchFrom]
    constructor
    · intro h
      exact absurd h Bool.false_ne_true
    · rintro ⟨s1, s2, heq, hex⟩
      obtain ⟨rfl, rfl⟩ := List.append_eq_nil.mp heq.symm
      simp only [tokensExact] at hex
      exact absurd hex Bool.false_ne_true
  | .lit c :: ts, d :: ds => by
    have ih := toksMatchFrom_iff ts ds
    simp only [toksMatchFrom]
    rw [Bool.and_eq_true, ih]
    constructor
    · rintro ⟨hc, s1, s2, rfl, hex⟩
      refine ⟨d :: s1, s2, rfl, ?_⟩
      simp only [tokensExact]
      rw [Bool.and_eq_true]
      exact ⟨hc, hex⟩
    · rintro ⟨s1, s2, heq, hex⟩
      cases s1 with
      | nil =>
        simp only [tokensExact] at hex
        exact absurd hex Bool.false_ne_true
      | cons a s1' =>
        rw [List.cons_append] at heq
        injection heq with h1 h2
        subst h1
        simp only [tokensExact] at hex
        rw [Bool.and_eq_true] at hex
        exact ⟨hex.1, s1', s2, h2, hex.2⟩
  | .any :: ts, d :: ds => by
    have ih := toksMatchFrom_iff ts ds
    simp only [toksMatchFrom]
    rw [Bool.and_eq_true, ih]
    constructor
    · rintro ⟨hc, s1, s2, rfl, hex⟩
      refine ⟨d :: s1, s2, rfl, ?_⟩
      simp only [tokensExact]
      rw [Bool.and_eq_true]
      exact ⟨hc, hex⟩
    · rintro ⟨s1, s2, heq, hex⟩
      cases s1 with
      | nil =>
        simp only [tokensExact] at hex
        exact absurd hex Bool.false_ne_true
      | cons a s1' =>
        rw [List.cons_append] at heq
        injection heq with h1 h2
        subst h1
        simp only [tokensExact] at hex
        rw [Bool.and_eq_true] at hex
        exact ⟨hex.1, s1', s2, h2, hex.2⟩
  | .star :: ts, [] => by
    have ih := toksMatchFrom_iff ts []
    simp only [toksMatchFrom, Bool.or_eq_true, ih]
    constructor
    · rintro (⟨s1, s2, heq, hex⟩ | h)
      · obtain ⟨rfl, rfl⟩ := List.append_eq_nil.mp heq.symm
        refine ⟨[], [], rfl, ?_⟩
        simp only [tokensExact, Bool.or_eq_true]
        exact Or.inl hex
      · exact absurd h Bool.false_ne_true
    · rintro ⟨s1, s2, heq, hex⟩
      obtain ⟨rfl, rfl⟩ := List.append_eq_nil.mp heq.symm
      simp only [tokensExact, Bool.or_eq_true] at hex
      rcases hex with hex | hex
      · exact Or.inl ⟨[], [], rfl, hex⟩
      · exact absurd hex Bool.false_ne_true
  | .star :: ts, d :: ds => by
    have ih1 := toksMatchFrom_iff ts (d :: ds)
    have ih2 := toksMatchFrom_iff (.star :: ts) ds
    simp only [toksMatchFrom, Bool.or_eq_true, Bool.and_eq_true, ih1, ih2]
    constructor
    · rintro (⟨s1, s2, heq, hex⟩ | ⟨hd, s1, s2, rfl, hex⟩)
      · exact ⟨s1, s2, heq, tokensExact_star_left ts s1 hex⟩
      · refine ⟨d :: s1, s2, rfl, ?_⟩
        simp only [tokensExact, Bool.or_eq_true, Bool.and_eq_true]
        exact Or.inr ⟨hd, hex⟩
    · rintro ⟨s1, s2, heq, hex⟩
      cases s1 with
      | nil =>
        simp only [tokensExact, Bool.or_eq_true] at hex
        rcases hex with hex | hex
        · exact Or.inl ⟨[], s2, heq, hex⟩
        · exact absurd hex Bool.false_ne_true
      | cons a s1' =>
        simp only [tokensExact, Bool.or_eq_true, Bool.and_eq_true] at hex
        rcases hex with hex | ⟨ha, hex⟩
        · exact Or.inl ⟨a :: s1', s2, heq, hex⟩
        · rw [List.cons_append] at heq
          injection heq with h1 h2
          subst h1
          exact Or.inr ⟨ha, s1', s2, h2, hex⟩
termination_by ts s => (s.length, ts.length)

/-- `bundleItemOk` unfolded to its logical content. -/
theorem bundleItemOk_iff (cb eb : BundleSpec) :
    bundleItemOk cb eb = true ↔
      cb.resourceType = eb.resourceType ∧
      ∀ cps, cb.profile = some cps → ∃ cp ∈ cps, cp ∈ eb.profile.getD [] := by
  rw [bundleItemOk]
  cases hcb : cb.profile with
  | none =>
    simp [hcb]
  | some cps =>
    cases heb : eb.profile with
    | none => simp [hcb, heb, List.any_eq_true]
    | some eps => simp [hcb, heb, List.any_eq_true]

end Oidc4vp

namespace Oidc4vp

/-! ## Claim theorems -/

/-- **C1 counterexample.** An input whose `client_id` equals its
`redirect_uri` is not necessarily accepted: when `client_metadata` is
missing, `JSON.parse(undefined)` throws and the parse is rejected although
the two fields are equal, so "rejects exactly the unequal inputs" fails. -/
theorem c1_client_binding_counterexample :
    noMetadataQuery.client_id = noMetadataQuery.redirect_uri ∧
    isOkE (parseRequest noMetadataQuery) = false := by
  constructor
  · rfl
  · decide

/-- **C1 (amended).** The parser rejects every input with
`client_id ≠ redirect_uri`, before any scope resolution or matching (the
whole pipeline fails too); an input with the two fields equal is accepted
exactly when its `client_metadata` is present and JSON-decodes and its
`presentation_definition`, when present, JSON-decodes — equality of the two
fields alone does not guarantee acceptance. -/
theorem c1_client_binding_amended (raw : RawQuery) (manifest : List ManifestEntry) :
    (raw.client_id ≠ raw.redirect_uri →
      isOkE (parseRequest raw) = false ∧ isOkE (processQuery raw manifest) = false) ∧
    (raw.client_id = raw.redirect_uri →
      (isOkE (parseRequest raw) = true ↔
        isOkE (parsePdField raw.presentation_definition) = true ∧
        isOkE (parseCmField raw.client_metadata) = true)) := by
  constructor
  · intro hne
    have h1 : isOkE (parseRequest raw) = false := by
      rw [parseRequest]
      cases parsePdField raw.presentation_definition with
      | error e => rfl
      | ok pd =>
        cases parseCmField raw.client_metadata with
        | error e => rfl
        | ok cm =>
          dsimp only
          rw [if_pos hne]
          rfl
    refine ⟨h1, ?_⟩
    rw [processQuery]
    cases hpr : parseRequest raw with
    | error e => rfl
    | ok parsed =>
      rw [hpr] at h1
      exact absurd h1 (by simp [isOkE])
  · intro heq
    rw [parseRequest]
    cases parsePdField raw.presentation_definition with
    | error e => simp [isOkE]
    | ok pd =>
      cases parseCmField raw.client_metadata with
      | error e => simp [isOkE]
      | ok cm =>
        dsimp only
        rw [if_neg (fun h => h heq)]
        simp [isOkE]

/-- **C1 witness.** The amended theorem applied to a query with different
`client_id` and `redirect_uri`: parse and pipeline both reject. -/
theorem c1_client_binding_amended_witness :
    mismatchQuery.client_id ≠ mismatchQuery.redirect_uri ∧
    isOkE (parseRequest mismatchQuery) = false ∧
    isOkE (processQuery mismatchQuery [demoEntry]) = false :=
  ⟨by decide,
   ((c1_client_binding_amended mismatchQuery [demoEntry]).1 (by decide)).1,
   ((c1_client_binding_amended mismatchQuery [demoEntry]).1 (by decide)).2⟩

/-- **C2.** `findManifestEntries(definition, entries)` is the order-preserving
sublist of `entries` consisting of exactly those entries that satisfy every
input descriptor of the definition (logical AND across all descriptors, each
descriptor evaluated against the same single entry). -/
theorem c2_match_is_filter (req : PresentationDefinition) (m : List ManifestEntry) :
    (findManifestEntries req m).Sublist m ∧
    ∀ e, e ∈ findManifestEntries req m ↔
      e ∈ m ∧ ∀ d ∈ req.input_descriptors, descriptorSatisfied d e = true := by
  constructor
  · exact List.filter_sublist m
  · intro e
    rw [findManifestEntries, List.mem_filter]
    simp only [List.all_eq_true]
    constructor
    · rintro ⟨hm, hall⟩
      exact ⟨hm, fun d hd => hall _ (List.mem_map_of_mem compileDescriptor hd)⟩
    · rintro ⟨hm, hall⟩
      refine ⟨hm, fun c hc => ?_⟩
      obtain ⟨d, hd, rfl⟩ := List.mem_map.mp hc
      exact hall d hd

/-- **C2 witness.** The theorem instantiated at the insurance definition and
the demo manifest. -/
theorem c2_match_is_filter_witness :
    (findManifestEntries digitalInsurancePresentationDefinition [demoEntry]).Sublist [demoEntry] ∧
    ∀ e, e ∈ findManifestEntries digitalInsurancePresentationDefinition [demoEntry] ↔
      e ∈ [demoEntry] ∧
      ∀ d ∈ digitalInsurancePresentationDefinition.input_descriptors,
        descriptorSatisfied d e = true :=
  c2_match_is_filter digitalInsurancePresentationDefinition [demoEntry]

/-- **C3 counterexample.** The claimed glob semantics (a literal `.` matches
exactly `.`, whole version against whole pattern) disagrees with the code:
the unescaped `.` of pattern `"4."` matches the `x` of version `"4x"`, and
the unanchored search makes pattern `"4.*"` match version `"5.4.0"`. -/
theorem c3_glob_counterexample :
    versionPatternTest "4." "4x" = true ∧
    specGlobVersionMatch "4." "4x" = false ∧
    versionPatternTest "4.*" "5.4.0" = true ∧
    specGlobVersionMatch "4.*" "5.4.0" = false := by
  refine ⟨?_, ?_, ?_, ?_⟩
  · have h : compileVersionPattern "4." = [Tok.lit '4', Tok.any] := by decide
    rw [versionPatternTest, h]
    show searchToks [Tok.lit '4', Tok.any] ['4', 'x'] = true
    simp only [searchToks, toksMatchFrom, notLineTerm]
    decide
  · rw [specGlobVersionMatch]
    show specGlobMatches ['4', '.'] ['4', 'x'] = false
    simp only [specGlobMatches]
    decide
  · have h : compileVersionPattern "4.*" = [Tok.lit '4', Tok.any, Tok.star] := by decide
    rw [versionPatternTest, h]
    show searchToks [Tok.lit '4', Tok.any, Tok.star] ['5', '.', '4', '.', '0'] = true
    simp only [searchToks, toksMatchFrom, notLineTerm]
    decide
  · rw [specGlobVersionMatch]
    show specGlobMatches ['4', '.', '*'] ['5', '.', '4', '.', '0'] = false
    simp only [specGlobMatches]
    decide

/-- **C3 (amended).** For version patterns whose other characters carry no
regex meaning, the compiled pattern matches a version string iff some
contiguous substring of the version exactly matches the whole pattern, where
`*` matches any sequence of non-line-terminator characters, an (unescaped)
`.` matches any single non-line-terminator character, and every other
character matches exactly itself: an unanchored substring search, not an
anchored glob with literal dots. -/
theorem c3_glob_amended (p v : String)
    (_hp : ∀ c ∈ p.data, c = '*' ∨ c = '.' ∨ isRegexMeta c = false) :
    versionPatternTest p v = true ↔
      ∃ pre mid post, v.data = pre ++ mid ++ post ∧
        tokensExact (compileVersionPattern p) mid = true := by
  rw [versionPatternTest, searchToks_iff]
  constructor
  · rintro ⟨s1, s2, heq, hm⟩
    obtain ⟨mid, post, rfl, hex⟩ :=
      (toksMatchFrom_iff (compileVersionPattern p) s2).mp hm
    exact ⟨s1, mid, post, by rw [List.append_assoc]; exact heq, hex⟩
  · rintro ⟨pre, mid, post, heq, hex⟩
    exact ⟨pre, mid ++ post, by rw [← List.append_assoc]; exact heq,
      (toksMatchFrom_iff (compileVersionPattern p) (mid ++ post)).mpr ⟨mid, post, rfl, hex⟩⟩

/-- **C3 witness.** The amended theorem at the registered pattern `"4.*"`
and the demo version `"4.0.1"`. -/
theorem c3_glob_amended_witness :
    (∀ c ∈ "4.*".data, c = '*' ∨ c = '.' ∨ isRegexMeta c = false) ∧
    (versionPatternTest "4.*" "4.0.1" = true ↔
      ∃ pre mid post, "4.0.1".data = pre ++ mid ++ post ∧
        tokensExact (compileVersionPattern "4.*") mid = true) :=
  ⟨by decide, c3_glob_amended "4.*" "4.0.1" (by decide)⟩

/-- **C4.** A descriptor whose `constraints.optional` flag is true is counted
as satisfied by every manifest entry, whatever its `fhirVersion` or bundle
contents: the version and bundle checks are short-circuited away. -/
theorem c4_optional_short_circuit (d : InputDescriptor) (e : ManifestEntry)
    (h : d.constraints.optional = true) : descriptorSatisfied d e = true := by
  simp [descriptorSatisfied, constraintOk, compileDescriptor, h]

/-- **C4 witness.** An optional descriptor is satisfied by an entry with an
irrelevant version and an empty (requirement-violating) bundle. -/
theorem c4_optional_short_circuit_witness :
    optionalDescriptor.constraints.optional = true ∧
    descriptorSatisfied optionalDescriptor violatingEntry = true :=
  ⟨rfl, c4_optional_short_circuit optionalDescriptor violatingEntry rfl⟩

/-- **C5.** For a non-optional descriptor, the bundle-requirements check
succeeds on an entry iff for every bundle-content spec of the descriptor some
bundle item of the entry has the spec's `resourceType` and, whenever the spec
declares a `profile` list, shares at least one profile with that same item (a
spec without a `profile` list needs only the `resourceType` match). -/
theorem c5_bundle_requirements (d : InputDescriptor) (e : ManifestEntry)
    (_hopt : d.constraints.optional = false) :
    bundleOk d.constraints.fhirBundleContains e = true ↔
      ∀ cb ∈ d.constraints.fhirBundleContains, ∃ eb ∈ e.fhirBundleContains,
        cb.resourceType = eb.resourceType ∧
        ∀ cps, cb.profile = some cps → ∃ cp ∈ cps, cp ∈ eb.profile.getD [] := by
  rw [bundleOk, List.all_eq_true]
  refine forall_congr' fun cb => imp_congr_right fun _ => ?_
  rw [List.any_eq_true]
  exact exists_congr fun eb => and_congr_right fun _ => bundleItemOk_iff cb eb

/-- **C5 witness.** The theorem instantiated at the insurance descriptor and
the demo entry; both bundle-content specs are matched. -/
theorem c5_bundle_requirements_witness :
    insuranceDescriptor.constraints.optional = false ∧
    (bundleOk insuranceDescriptor.constraints.fhirBundleContains demoEntry = true ↔
      ∀ cb ∈ insuranceDescriptor.constraints.fhirBundleContains,
        ∃ eb ∈ demoEntry.fhirBundleContains,
          cb.resourceType = eb.resourceType ∧
          ∀ cps, cb.profile = some cps → ∃ cp ∈ cps, cp ∈ eb.profile.getD []) :=
  ⟨rfl, c5_bundle_requirements insuranceDescriptor demoEntry rfl⟩

set_option maxRecDepth 10000 in
/-- **C6 counterexample.** For an endpoint that itself contains a `?`,
`a.url.split("?")[1]` selects the wrong segment and the parse fails, so
"for every endpoint ... parsing the URL produced by build reproduces the
original request" is false. -/
theorem c6_roundtrip_counterexample :
    isOkE (parseUrl (prepareToAuthorize "http://localhost:8080"
      "https://e.example/a?x" ["https://smarthealth.cards/scope#insurance"]
      "n-1").2) = false := by
  decide

set_option maxRecDepth 10000 in
/-- **C6 (amended).** For every endpoint that does not contain a `?`, and the
ASCII-range client identifier, nonce and registered scope strings the program
uses, parsing the URL produced by build reproduces the original request's
`nonce`, `client_id`, `redirect_uri` (verbatim) and `client_metadata`
(structurally, after the JSON round trip), with no inline
`presentation_definition`. -/
theorem c6_roundtrip_amended (endpoint client_id nonce : String) (scopeList : List String)
    (hq : '?' ∉ endpoint.data)
    (hcid : asciiOnly client_id = true)
    (hnonce : asciiOnly nonce = true)
    (hscope : asciiOnly (joinSpace scopeList) = true) :
    parseUrl (prepareToAuthorize client_id endpoint scopeList nonce).2 =
      .ok { presentation_definition := none,
            client_metadata := clientMetadataJson,
            scope := .str (joinSpace scopeList),
            nonce := .str nonce,
            client_id := .str client_id,
            redirect_uri := .str client_id,
            presentation_definition_uri := .absent,
            response_type := .str "vp_token" } := by
  have hascii6 : ∀ p ∈ ([("client_id", client_id), ("redirect_uri", client_id),
      ("client_metadata", jsonStringify clientMetadataJson),
      ("scope", joinSpace scopeList), ("nonce", nonce),
      ("response_type", "vp_token")] : List (String × String)),
      asciiOnly p.1 = true ∧ asciiOnly p.2 = true := by
    intro p hp
    simp only [List.mem_cons, List.not_mem_nil, or_false] at hp
    rcases hp with rfl | rfl | rfl | rfl | rfl | rfl
    · exact ⟨(by decide : asciiOnly "client_id" = true), hcid⟩
    · exact ⟨(by decide : asciiOnly "redirect_uri" = true), hcid⟩
    · exact ⟨(by decide : asciiOnly "client_metadata" = true),
        (by decide : asciiOnly (jsonStringify clientMetadataJson) = true)⟩
    · exact ⟨(by decide : asciiOnly "scope" = true), hscope⟩
    · exact ⟨(by decide : asciiOnly "nonce" = true), hnonce⟩
    · exact ⟨(by decide : asciiOnly "response_type" = true),
        (by decide : asciiOnly "vp_token" = true)⟩
  have hpairs : qsParsePairs (qsStringify
      [("client_id", client_id), ("redirect_uri", client_id),
       ("client_metadata", jsonStringify clientMetadataJson),
       ("scope", joinSpace scopeList), ("nonce", nonce),
       ("response_type", "vp_token")]) =
      [("client_id", some client_id),
       ("client_metadata", some (jsonStringify clientMetadataJson)),
       ("nonce", some nonce), ("redirect_uri", some client_id),
       ("response_type", some "vp_token"),
       ("scope", some (joinSpace scopeList))] := by
    rw [qsParsePairs_qsStringify _ (List.cons_ne_nil _ _) hascii6]
    rfl
  have hurl : (prepareToAuthorize client_id endpoint scopeList nonce).2.data =
      endpoint.data ++ '?' :: qsStringify
      [("client_id", client_id), ("redirect_uri", client_id),
       ("client_metadata", jsonStringify clientMetadataJson),
       ("scope", joinSpace scopeList), ("nonce", nonce),
       ("response_type", "vp_token")] := by
    rw [show (prepareToAuthorize client_id endpoint scopeList nonce).2 =
        endpoint ++ "?" ++ String.mk (qsStringify
          [("client_id", client_id), ("redirect_uri", client_id),
           ("client_metadata", jsonStringify clientMetadataJson),
           ("scope", joinSpace scopeList), ("nonce", nonce),
           ("response_type", "vp_token")]) from rfl,
        String.data_append, String.data_append, List.append_assoc]
    rfl
  rw [parseUrl, hurl, jsSplitChar_append_sep '?' _ _ hq,
      jsSplitChar_no_sep '?' _ (qsStringify_no_qmark _)]
  rw [show ([endpoint.data, qsStringify
      [("client_id", client_id), ("redirect_uri", client_id),
       ("client_metadata", jsonStringify clientMetadataJson),
       ("scope", joinSpace scopeList), ("nonce", nonce),
       ("response_type", "vp_token")]] : List (List Char)).getD 1 [] =
      qsStringify
      [("client_id", client_id), ("redirect_uri", client_id),
       ("client_metadata", jsonStringify clientMetadataJson),
       ("scope", joinSpace scopeList), ("nonce", nonce),
       ("response_type", "vp_token")] from rfl,
      hpairs]
  rw [show toRawQuery
      [("client_id", some client_id),
       ("client_metadata", some (jsonStringify clientMetadataJson)),
       ("nonce", some nonce), ("redirect_uri", some client_id),
       ("response_type", some "vp_token"),
       ("scope", some (joinSpace scopeList))] =
      { presentation_definition := QVal.absent,
        presentation_definition_uri := QVal.absent,
        scope := QVal.str (joinSpace scopeList), nonce := QVal.str nonce,
        client_id := QVal.str client_id, redirect_uri := QVal.str client_id,
        client_metadata := QVal.str (jsonStringify clientMetadataJson),
        response_type := QVal.str "vp_token" } from rfl]
  rw [parseRequest]
  have hpd : parsePdField QVal.absent = Except.ok none := rfl
  have hcm : parseCmField (QVal.str (jsonStringify clientMetadataJson)) =
      Except.ok clientMetadataJson := rfl
  dsimp only
  rw [hpd, hcm]
  dsimp only
  rw [if_neg (fun h => h rfl)]

set_option maxRecDepth 10000 in
/-- **C6 witness.** The amended theorem at the demo client, the demo
authorization endpoint, the insurance scope and a concrete UUID nonce. -/
theorem c6_roundtrip_amended_witness :
    ('?' ∉ "https://example.org/shc-wallet/authorize".data) ∧
    asciiOnly "http://localhost:8080" = true ∧
    asciiOnly "4b4631e3-3a3e-4c43-9d83-1f2a2b9ed5a1" = true ∧
    asciiOnly (joinSpace ["https://smarthealth.cards/scope#insurance"]) = true ∧
    parseUrl (prepareToAuthorize "http://localhost:8080"
        "https://example.org/shc-wallet/authorize"
        ["https://smarthealth.cards/scope#insurance"]
        "4b4631e3-3a3e-4c43-9d83-1f2a2b9ed5a1").2 =
      .ok { presentation_definition := none,
            client_metadata := clientMetadataJson,
            scope := .str (joinSpace ["https://smarthealth.cards/scope#insurance"]),
            nonce := .str "4b4631e3-3a3e-4c43-9d83-1f2a2b9ed5a1",
            client_id := .str "http://localhost:8080",
            redirect_uri := .str "http://localhost:8080",
            presentation_definition_uri := .absent,
            response_type := .str "vp_token" } :=
  ⟨by decide, by decide, by decide, by decide,
   c6_roundtrip_amended "https://example.org/shc-wallet/authorize"
     "http://localhost:8080" "4b4631e3-3a3e-4c43-9d83-1f2a2b9ed5a1"
     ["https://smarthealth.cards/scope#insurance"]
     (by decide) (by decide) (by decide) (by decide)⟩

/-- **C7.** When the parsed request carries no inline
`presentation_definition` and its `scope` is a string that is not an exact
key of the scope registry, the match step fails with the (fatal) error of the
undefined-definition access and no matching is performed: no entry list is
produced. -/
theorem c7_unknown_scope (parsed : ParsedRequest) (manifest : List ManifestEntry)
    (s : String)
    (_hpd : parsed.presentation_definition = none)
    (hs : parsed.scope = QVal.str s)
    (h1 : s ≠ "https://smarthealth.cards/scope#insurance")
    (h2 : s ≠ "https://smarthealth.cards/scope#covid-vaccine") :
    matchStep parsed manifest = .error .typeError := by
  rw [matchStep, hs]
  have hres : resolveScope (QVal.str s) = none := by
    simp only [resolveScope, scopesRegistry, digitalInsurancePresentationDefinition,
      covidVaccinePresentationDefinition, List.map, List.lookup]
    rw [beq_eq_false_iff_ne.mpr h1, beq_eq_false_iff_ne.mpr h2]
  rw [hres]

/-- **C7 witness.** The supported-but-unregistered scope
`https://smarthealth.cards/scope#covid-test` is rejected before matching. -/
theorem c7_unknown_scope_witness :
    matchStep
      { presentation_definition := none, client_metadata := .null,
        scope := QVal.str "https://smarthealth.cards/scope#covid-test",
        nonce := .absent, client_id := .absent, redirect_uri := .absent,
        presentation_definition_uri := .absent, response_type := .absent }
      [demoEntry] = .error .typeError :=
  c7_unknown_scope _ [demoEntry] "https://smarthealth.cards/scope#covid-test"
    rfl rfl (by decide) (by decide)

/-- **C8.** The assembled token claims have `iss` the configured issuer,
`aud` the audience `client_id`, `nonce` copied verbatim, `nbf = iat`,
`exp = iat + 300` seconds, and `vp.verifiableCredential` the matched
credential strings verbatim in order. -/
theorem c8_vp_claims (jws : List String) (nonce client_id : String) (now : Nat)
    (jti : String) :
    (createVp jws nonce client_id now jti).iss = serverConfigISS ∧
    (createVp jws nonce client_id now jti).aud = client_id ∧
    (createVp jws nonce client_id now jti).nonce = nonce ∧
    (createVp jws nonce client_id now jti).nbf = (createVp jws nonce client_id now jti).iat ∧
    (createVp jws nonce client_id now jti).exp = (createVp jws nonce client_id now jti).iat + 300 ∧
    (createVp jws nonce client_id now jti).vp.verifiableCredential = jws :=
  ⟨rfl, rfl, rfl, rfl, rfl, rfl⟩

/-- **C8 witness.** The assembler scenario of the specification:
`nonce = "abc"`, audience `https://rp.example`, credentials
`["shcA", "shcB"]`. -/
theorem c8_vp_claims_witness :
    (createVp ["shcA", "shcB"] "abc" "https://rp.example" 1700000000 "jti-1").iss = serverConfigISS ∧
    (createVp ["shcA", "shcB"] "abc" "https://rp.example" 1700000000 "jti-1").aud = "https://rp.example" ∧
    (createVp ["shcA", "shcB"] "abc" "https://rp.example" 1700000000 "jti-1").nonce = "abc" ∧
    (createVp ["shcA", "shcB"] "abc" "https://rp.example" 1700000000 "jti-1").nbf =
      (createVp ["shcA", "shcB"] "abc" "https://rp.example" 1700000000 "jti-1").iat ∧
    (createVp ["shcA", "shcB"] "abc" "https://rp.example" 1700000000 "jti-1").exp =
      (createVp ["shcA", "shcB"] "abc" "https://rp.example" 1700000000 "jti-1").iat + 300 ∧
    (createVp ["shcA", "shcB"] "abc" "https://rp.example" 1700000000 "jti-1").vp.verifiableCredential =
      ["shcA", "shcB"] :=
  c8_vp_claims ["shcA", "shcB"] "abc" "https://rp.example" 1700000000 "jti-1"

/-- **C9.** The built authorization request has `client_id` equal to
`redirect_uri` (both the client's own identifier), `response_type` the
literal `"vp_token"`, the freshly generated nonce, and `scope` the requested
scope identifiers joined by single spaces. -/
theorem c9_request_fields (client_id endpoint : String) (scopeList : List String)
    (nonce : String) :
    (prepareToAuthorize client_id endpoint scopeList nonce).1.client_id = client_id ∧
    (prepareToAuthorize client_id endpoint scopeList nonce).1.redirect_uri = client_id ∧
    (prepareToAuthorize client_id endpoint scopeList nonce).1.response_type = "vp_token" ∧
    (prepareToAuthorize client_id endpoint scopeList nonce).1.nonce = nonce ∧
    (prepareToAuthorize client_id endpoint scopeList nonce).1.scope =
      some (joinSpace scopeList) :=
  ⟨rfl, rfl, rfl, rfl, rfl⟩

/-- **C9 witness.** The theorem at the demo client and provider endpoint. -/
theorem c9_request_fields_witness :
    (prepareToAuthorize "http://localhost:8080" "https://example.org/shc-wallet/authorize"
        ["https://smarthealth.cards/scope#insurance"] "n-1").1.client_id = "http://localhost:8080" ∧
    (prepareToAuthorize "http://localhost:8080" "https://example.org/shc-wallet/authorize"
        ["https://smarthealth.cards/scope#insurance"] "n-1").1.redirect_uri = "http://localhost:8080" ∧
    (prepareToAuthorize "http://localhost:8080" "https://example.org/shc-wallet/authorize"
        ["https://smarthealth.cards/scope#insurance"] "n-1").1.response_type = "vp_token" ∧
    (prepareToAuthorize "http://localhost:8080" "https://example.org/shc-wallet/authorize"
        ["https://smarthealth.cards/scope#insurance"] "n-1").1.nonce = "n-1" ∧
    (prepareToAuthorize "http://localhost:8080" "https://example.org/shc-wallet/authorize"
        ["https://smarthealth.cards/scope#insurance"] "n-1").1.scope =
      some (joinSpace ["https://smarthealth.cards/scope#insurance"]) :=
  c9_request_fields "http://localhost:8080" "https://example.org/shc-wallet/authorize"
    ["https://smarthealth.cards/scope#insurance"] "n-1"

/-- **C10.** Matching against a definition with an empty
`input_descriptors` list is the identity on the manifest: the conjunction
over descriptors is vacuously true for every entry. -/
theorem c10_empty_definition_identity (idStr : String) (m : List ManifestEntry) :
    findManifestEntries { id := idStr, input_descriptors := [] } m = m := by
  simp [findManifestEntries]

/-- **C10 witness.** The theorem at a two-entry manifest. -/
theorem c10_empty_definition_identity_witness :
    findManifestEntries { id := "https://smarthealth.cards/scope#empty", input_descriptors := [] }
      [demoEntry, { shc := "x", fhirVersion := "5.0.0", fhirBundleContains := [] }] =
      [demoEntry, { shc := "x", fhirVersion := "5.0.0", fhirBundleContains := [] }] :=
  c10_empty_definition_identity "https://smarthealth.cards/scope#empty" _

end Oidc4vp
